import Mathlib

/-!
Verification of the drgn runqueue helpers
(`drgn/helpers/linux/runqueue.py`) and the crash `runq` command
(`drgn/commands/_builtin/crash/runq.py`) against their natural-language
specification, via a shallow embedding in Lean 4.

Addresses and kernel values are modelled as `Int`; `container_of` is the
address arithmetic drgn performs (subtracting the member offset).  Linked
lists of the target are modelled as the Lean lists of the addresses of
their member nodes, in link order.
-/

namespace DrgnRunq

/-- drgn's `container_of(ptr, type, member)`: the address of the containing
structure is the address of the member minus the member's offset inside the
containing type. -/
def container_of (ptr off : Int) : Int := ptr - off

/-- The structure-layout offsets the two queue walkers use:
`off_rt` is `offsetof(struct task_struct, rt)`, `off_run_list` is
`offsetof(struct sched_rt_entity, run_list)`, and `off_se_group_node` is
`offsetof(struct task_struct, se.group_node)`. -/
structure Layout where
  off_rt : Int
  off_run_list : Int
  off_se_group_node : Int

/-- The fields of `struct rq` read by the code under verification.
`rt_active_queue` is the RT priority array `rt.active.queue`: one list of
`run_list` node addresses (in FIFO link order) per priority index, in
ascending index order.  `cfs_tasks` is the list of `se.group_node` node
addresses on the `cfs_tasks` list, in link order.  `curr` is the address
of the currently running `struct task_struct`. -/
structure Runqueue where
  addr : Int
  curr : Int
  clock : Int
  rt_active_addr : Int
  rt_active_queue : List (List Int)
  cfs_timeline_addr : Int
  cfs_tasks : List Int

/-- The fields of `struct task_struct` read by the crash `runq` command. -/
structure TaskFields where
  pid : Int
  prio : Int
  last_arrival : Int
  comm : List Nat

/-- Back-resolution performed by `get_rt_runq_tasks` for one `run_list`
node: `list_for_each_entry` resolves the node to its `struct
sched_rt_entity` and the explicit `container_of(t, "struct task_struct",
"rt")` resolves that to the owning task. -/
def rt_resolve (L : Layout) (node : Int) : Int :=
  container_of (container_of node L.off_run_list) L.off_rt

/-- `get_rt_runq_tasks`: walk `rq.rt.active.queue` in ascending priority
index order; for each slot walk its `run_list` list in link order and
yield the resolved owning task. -/
def get_rt_runq_tasks (L : Layout) (rq : Runqueue) : List Int :=
  rq.rt_active_queue.flatMap (fun que => que.map (rt_resolve L))

/-- The contribution of one `cfs_tasks` node in `get_cfs_runq_tasks`:
`list_for_each_entry` resolves the node to its owning `struct task_struct`
via the `se.group_node` offset; a task equal (by address) to
`runqueue.curr` is skipped; otherwise the source applies a second
`container_of(t, "struct task_struct", "rt")` to the already-resolved
task pointer and yields that. -/
def cfs_task_of_node (L : Layout) (rq : Runqueue) (node : Int) : Option Int :=
  let t := container_of node L.off_se_group_node
  if t = rq.curr then none else some (container_of t L.off_rt)

/-- `get_cfs_runq_tasks`: walk the `cfs_tasks` list in link order,
yielding the per-node contribution. -/
def get_cfs_runq_tasks (L : Layout) (rq : Runqueue) : List Int :=
  rq.cfs_tasks.filterMap (cfs_task_of_node L rq)

/-- The RT tasks actually printed by `dump_run_queue`: the caller
iterates `get_rt_runq_tasks` and skips every task equal (by address) to
`runqueue.curr`. -/
def rtPrinted (L : Layout) (rq : Runqueue) : List Int :=
  (get_rt_runq_tasks L rq).filter (fun t => !(t == rq.curr))

/-- Left-pad the decimal representation of `n` with zeros to width `w`,
as Python's `{n:02}` / `{n:03}` format specifications do. -/
def padZero (w : Nat) (n : Nat) : String :=
  let s := toString n
  if s.length < w then String.mk (List.replicate (w - s.length) '0') ++ s else s

/-- The divmod chain of `timestamp_str`, returning
(days, hours, mins, secs, ms). -/
def timestamp_fields (ns : Nat) : Nat × Nat × Nat × Nat × Nat :=
  let ms_total := ns / 1000000
  let ms := ms_total % 1000
  let secs_total := ms_total / 1000
  let secs := secs_total % 60
  let mins_total := secs_total / 60
  let mins := mins_total % 60
  let hours_total := mins_total / 60
  let hours := hours_total % 24
  let days := hours_total / 24
  (days, hours, mins, secs, ms)

/-- `timestamp_str`: convert nanoseconds to a `days HH:MM:SS.mmm`
string. -/
def timestamp_str (ns : Nat) : String :=
  let f := timestamp_fields ns
  toString f.1 ++ " " ++ padZero 2 f.2.1 ++ ":" ++ padZero 2 f.2.2.1 ++ ":"
    ++ padZero 2 f.2.2.2.1 ++ "." ++ padZero 3 f.2.2.2.2

/-- Claim C3, counterexample: on 90_061_000_000 ns (about 90 seconds, not
1 day 1:01:01) `timestamp_str` produces "0 00:01:30.061", not the claimed
"1 01:01:01.000"; the claimed input is off by a factor of 1000. -/
theorem timestamp_str_example_refuted :
    timestamp_str 90061000000 = "0 00:01:30.061" ∧
    "0 00:01:30.061" ≠ "1 01:01:01.000" := by
  constructor
  · decide
  · decide

/-- Claim C3, amended: `timestamp_str` is a pure function of the
nanosecond input that truncates at each unit boundary: it depends only on
the truncated millisecond total, maps 0 ns to "0 00:00:00.000", maps
90_061_000_000_000 ns (1 day, 1 h, 1 min, 1 s) to "1 01:01:01.000", and
maps 999_999 ns to "0 00:00:00.000" (not ".001"). -/
theorem timestamp_str_truncates :
    (∀ ns : Nat, timestamp_str ns = timestamp_str (1000000 * (ns / 1000000))) ∧
    timestamp_str 0 = "0 00:00:00.000" ∧
    timestamp_str 90061000000000 = "1 01:01:01.000" ∧
    timestamp_str 999999 = "0 00:00:00.000" := by
  refine ⟨fun ns => ?_, by decide, by decide, by decide⟩
  have h : 1000000 * (ns / 1000000) / 1000000 = ns / 1000000 :=
    Nat.mul_div_cancel_left _ (by norm_num)
  simp only [timestamp_str, timestamp_fields, h]

/-- A concrete layout: `offsetof(task_struct, rt) = 100`,
`offsetof(sched_rt_entity, run_list) = 8`,
`offsetof(task_struct, se.group_node) = 40`. -/
def layoutEx : Layout := ⟨100, 8, 40⟩

/-- A concrete run-queue whose current task (address 1000) is linked into
priority slot 0 of the RT priority array: its `run_list` node sits at
1000 + 100 + 8 = 1108. -/
def rqCurrLinked : Runqueue :=
  { addr := 500, curr := 1000, clock := 0, rt_active_addr := 600,
    rt_active_queue := [[1108]], cfs_timeline_addr := 700, cfs_tasks := [] }

/-- Claim C1, counterexample: `get_rt_runq_tasks` does not exclude the
current task — on a run-queue whose current task is linked into the RT
priority array, the walker yields it. -/
theorem get_rt_runq_tasks_yields_curr :
    rqCurrLinked.curr ∈ get_rt_runq_tasks layoutEx rqCurrLinked := by
  decide

/-- Claim C1, amended: the current task never appears among the RT tasks
that `dump_run_queue` prints (the caller filters it by address identity),
and the CFS walker skips every `cfs_tasks` node whose owning task is the
current task: its output is exactly the non-current owners, each passed
through the walker's final `container_of`.  `get_rt_runq_tasks` itself
may yield the current task. -/
theorem current_task_excluded (L : Layout) (rq : Runqueue) :
    rq.curr ∉ rtPrinted L rq ∧
    get_cfs_runq_tasks L rq =
      ((rq.cfs_tasks.map (fun node => container_of node L.off_se_group_node)).filter
        (fun t => !(t == rq.curr))).map (fun t => container_of t L.off_rt) := by
  constructor
  · intro h
    rw [rtPrinted, List.mem_filter] at h
    simp at h
  · rw [get_cfs_runq_tasks, List.filter_map, List.map_map]
    induction rq.cfs_tasks with
    | nil => rfl
    | cons n ns ih =>
        simp only [List.filterMap_cons, List.map_cons, List.filter_cons,
          cfs_task_of_node, Function.comp]
        by_cases h : container_of n L.off_se_group_node = rq.curr
        · simp [h, ih]
        · simp [h, ih]

/-- A run-queue with one task (at address 2000) queued on `cfs_tasks`:
its `se.group_node` node sits at 2000 + 40 = 2040.  The current task is
elsewhere (address 3000). -/
def rqCfsOne : Runqueue :=
  { addr := 500, curr := 3000, clock := 0, rt_active_addr := 600,
    rt_active_queue := [], cfs_timeline_addr := 700, cfs_tasks := [2040] }

/-- Claim C2: evaluating `get_cfs_runq_tasks` at the failing input.  The
`cfs_tasks` node at 2040 is owned by the task at 2000 (the node is the
`se.group_node` member, offset 40), yet the walker yields 1900 = 2000 −
offsetof(task_struct, rt): the source applies `container_of(t, "struct
task_struct", "rt")` a second time to the already-resolved task pointer,
so the yielded address is not the owning task. -/
theorem get_cfs_runq_tasks_shifts_owner :
    get_cfs_runq_tasks layoutEx rqCfsOne = [1900] ∧
    container_of 2040 layoutEx.off_se_group_node = 2000 ∧
    (1900 : Int) ≠ 2000 := by
  refine ⟨by decide, by decide, by decide⟩

/-- The RT walk annotated with the priority-array index each task comes
from: slot `que` at position `i` (counting from the starting index)
contributes `(i, rt_resolve node)` for each of its nodes in link order. -/
def rtIndexed (L : Layout) : Nat → List (List Int) → List (Nat × Int)
  | _, [] => []
  | i, que :: rest => que.map (fun node => (i, rt_resolve L node)) ++ rtIndexed L (i + 1) rest

theorem rtIndexed_map_snd (L : Layout) :
    ∀ (i : Nat) (qs : List (List Int)),
      (rtIndexed L i qs).map Prod.snd = qs.flatMap (fun que => que.map (rt_resolve L)) := by
  intro i qs
  induction qs generalizing i with
  | nil => rfl
  | cons que rest ih =>
      simp [rtIndexed, List.map_append, List.map_map, ih, Function.comp]

theorem rtIndexed_fst_ge (L : Layout) :
    ∀ (i : Nat) (qs : List (List Int)) (p : Nat × Int), p ∈ rtIndexed L i qs → i ≤ p.1 := by
  intro i qs
  induction qs generalizing i with
  | nil => intro p h; simp [rtIndexed] at h
  | cons que rest ih =>
      intro p h
      rw [rtIndexed, List.mem_append] at h
      rcases h with h | h
      · rcases List.mem_map.1 h with ⟨n, _, rfl⟩
        exact Nat.le_refl i
      · exact Nat.le_trans (Nat.le_succ i) (ih (i + 1) p h)

theorem pairwise_of_forall {α : Type} {R : α → α → Prop} (h : ∀ a b : α, R a b) :
    ∀ l : List α, l.Pairwise R := by
  intro l
  induction l with
  | nil => exact List.Pairwise.nil
  | cons a as ih => exact List.Pairwise.cons (fun b _ => h a b) ih

theorem rtIndexed_fst_mono (L : Layout) :
    ∀ (i : Nat) (qs : List (List Int)),
      (rtIndexed L i qs).Pairwise (fun a b => a.1 ≤ b.1) := by
  intro i qs
  induction qs generalizing i with
  | nil => exact List.Pairwise.nil
  | cons que rest ih =>
      rw [rtIndexed, List.pairwise_append]
      refine ⟨?_, ih (i + 1), ?_⟩
      · rw [List.pairwise_map]
        exact pairwise_of_forall (fun _ _ => Nat.le_refl i) que
      · intro a ha b hb
        rcases List.mem_map.1 ha with ⟨n, _, rfl⟩
        exact Nat.le_trans (Nat.le_succ i) (rtIndexed_fst_ge L (i + 1) rest b hb)

theorem rtIndexed_level (L : Layout) :
    ∀ (qs : List (List Int)) (k j : Nat) (que : List Int), qs.get? j = some que →
      (rtIndexed L k qs).filter (fun p => p.1 == k + j) =
        que.map (fun node => (k + j, rt_resolve L node)) := by
  intro qs
  induction qs with
  | nil => intro k j que h; simp at h
  | cons q rest ih =>
      intro k j que h
      rw [rtIndexed, List.filter_append]
      cases j with
      | zero =>
          simp only [List.get?] at h
          obtain rfl : q = que := Option.some.inj h
          have h1 : (q.map (fun node => (k, rt_resolve L node))).filter
              (fun p => p.1 == k + 0) = q.map (fun node => (k + 0, rt_resolve L node)) := by
            simp only [Nat.add_zero]
            refine List.filter_eq_self.mpr ?_
            intro p hp
            rcases List.mem_map.1 hp with ⟨n, _, rfl⟩
            simp
          have h2 : (rtIndexed L (k + 1) rest).filter (fun p => p.1 == k + 0) = [] := by
            rw [List.filter_eq_nil_iff]
            intro p hp
            have := rtIndexed_fst_ge L (k + 1) rest p hp
            simp only [beq_iff_eq]
            omega
          rw [h1, h2, List.append_nil]
      | succ j' =>
          simp only [List.get?] at h
          have h1 : (q.map (fun node => (k, rt_resolve L node))).filter
              (fun p => p.1 == k + (j' + 1)) = [] := by
            rw [List.filter_eq_nil_iff]
            intro p hp
            rcases List.mem_map.1 hp with ⟨n, _, rfl⟩
            simp only [beq_iff_eq]
            omega
          have h2 := ih (k + 1) j' que h
          rw [h1, List.nil_append]
          have hkj : k + 1 + j' = k + (j' + 1) := by omega
          rw [hkj] at h2
          exact h2

/-- Claim C7: the RT walker scans the priority array in ascending index
order, so the indices attached to its output are non-decreasing; within
one priority level the tasks come out in the embedded list's link order;
an empty level contributes nothing and an entirely empty RT queue yields
the empty sequence. -/
theorem rt_queue_order (L : Layout) (rq : Runqueue) :
    (rtIndexed L 0 rq.rt_active_queue).map Prod.snd = get_rt_runq_tasks L rq ∧
    (rtIndexed L 0 rq.rt_active_queue).Pairwise (fun a b => a.1 ≤ b.1) ∧
    (∀ (j : Nat) (que : List Int), rq.rt_active_queue.get? j = some que →
      ((rtIndexed L 0 rq.rt_active_queue).filter (fun p => p.1 == j)).map Prod.snd =
        que.map (rt_resolve L)) ∧
    ((∀ que ∈ rq.rt_active_queue, que = []) → get_rt_runq_tasks L rq = []) := by
  refine ⟨rtIndexed_map_snd L 0 rq.rt_active_queue, rtIndexed_fst_mono L 0 rq.rt_active_queue,
    ?_, ?_⟩
  · intro j que h
    have := rtIndexed_level L rq.rt_active_queue 0 j que h
    simp only [Nat.zero_add] at this
    rw [this, List.map_map]
    rfl
  · intro h
    rw [get_rt_runq_tasks, List.flatMap_eq_nil_iff]
    intro que hq
    rw [h que hq]
    rfl

/-- A run-queue whose RT priority array has an occupied slot 0, an empty
slot 1 and an occupied slot 2. -/
def rqRt3 : Runqueue :=
  { addr := 500, curr := 9000, clock := 0, rt_active_addr := 600,
    rt_active_queue := [[1108, 1208], [], [2108]], cfs_timeline_addr := 700,
    cfs_tasks := [] }

/-- A run-queue whose RT priority array slots are all empty. -/
def rqRtEmpty : Runqueue :=
  { addr := 500, curr := 9000, clock := 0, rt_active_addr := 600,
    rt_active_queue := [[], [], []], cfs_timeline_addr := 700, cfs_tasks := [] }

/-- Claim C7, witness: instantiating `rt_queue_order` on a concrete
run-queue with an occupied slot 0, an empty slot 1 and an occupied
slot 2. -/
theorem rt_queue_order_witness :
    ((rtIndexed layoutEx 0 rqRt3.rt_active_queue).filter (fun p => p.1 == 1)).map Prod.snd =
        [] ∧
    ((rtIndexed layoutEx 0 rqRt3.rt_active_queue).filter (fun p => p.1 == 2)).map Prod.snd =
        [rt_resolve layoutEx 2108] ∧
    get_rt_runq_tasks layoutEx rqRtEmpty = [] := by
  refine ⟨?_, ?_, ?_⟩
  · have h := (rt_queue_order layoutEx rqRt3).2.2.1 1 [] (by decide)
    simpa using h
  · have h := (rt_queue_order layoutEx rqRt3).2.2.1 2 [2108] (by decide)
    simpa using h
  · exact (rt_queue_order layoutEx rqRtEmpty).2.2.2 (by decide)

/-- Python's `max` over a non-empty sequence, as a left fold from a first
value. -/
def listMaxFrom (a : Int) : List Int → Int
  | [] => a
  | x :: xs => listMaxFrom (max a x) xs

theorem le_listMaxFrom (l : List Int) : ∀ a : Int, a ≤ listMaxFrom a l := by
  induction l with
  | nil => intro a; exact le_refl a
  | cons x xs ih => intro a; exact le_trans (le_max_left a x) (ih (max a x))

theorem mem_le_listMaxFrom (l : List Int) : ∀ a x : Int, x ∈ l → x ≤ listMaxFrom a l := by
  induction l with
  | nil => intro a x h; cases h
  | cons y ys ih =>
      intro a x h
      rcases List.mem_cons.1 h with rfl | h
      · exact le_trans (le_max_right a x) (le_listMaxFrom ys (max a x))
      · exact ih (max a y) x h

theorem listMaxFrom_cases (l : List Int) :
    ∀ a : Int, listMaxFrom a l = a ∨ listMaxFrom a l ∈ l := by
  induction l with
  | nil => intro a; exact Or.inl rfl
  | cons x xs ih =>
      intro a
      simp only [listMaxFrom]
      rcases ih (max a x) with h | h
      · rcases max_choice a x with hm | hm
        · exact Or.inl (by rw [h, hm])
        · exact Or.inr (by rw [h, hm]; exact List.mem_cons_self x xs)
      · exact Or.inr (List.mem_cons_of_mem x h)

/-- `max(runq_clocks.values())`: the collected clocks are an
insertion-ordered association list of (cpu, clock) pairs. -/
def maxClock : List (Nat × Int) → Int
  | [] => 0
  | p :: ps => listMaxFrom p.2 (ps.map Prod.snd)

theorem le_maxClock (clocks : List (Nat × Int)) (q : Nat × Int) (h : q ∈ clocks) :
    q.2 ≤ maxClock clocks := by
  cases clocks with
  | nil => cases h
  | cons p ps =>
      rcases List.mem_cons.1 h with rfl | h
      · exact le_listMaxFrom _ _
      · exact mem_le_listMaxFrom _ _ _ (List.mem_map_of_mem Prod.snd h)

theorem maxClock_attained (clocks : List (Nat × Int)) (h : clocks ≠ []) :
    ∃ q ∈ clocks, q.2 = maxClock clocks := by
  cases clocks with
  | nil => exact absurd rfl h
  | cons p ps =>
      rcases listMaxFrom_cases (ps.map Prod.snd) p.2 with hc | hc
      · exact ⟨p, List.mem_cons_self p ps, hc.symm⟩
      · rcases List.mem_map.1 hc with ⟨q, hq, hqe⟩
        exact ⟨q, List.mem_cons_of_mem p hq, hqe⟩

/-- The dict comprehension building `lags`: every collected cpu paired
with `max_clock - runq_clock`, in collection order. -/
def lagsOf (clocks : List (Nat × Int)) : List (Nat × Int) :=
  clocks.map (fun p => (p.1, maxClock clocks - p.2))

/-- Stable ascending insertion by lag value, the semantics of Python's
`sorted(lags.items(), key=lambda item: item[1])`: an element is placed
before the first existing element with a strictly larger-or-equal key
only when its own key is smaller or equal, so equal keys keep their
input order. -/
def insort (a : Nat × Int) : List (Nat × Int) → List (Nat × Int)
  | [] => [a]
  | b :: bs => if a.2 ≤ b.2 then a :: b :: bs else b :: insort a bs

/-- Stable sort by lag value (Python's `sorted` with key `item[1]`). -/
def sortedByLag : List (Nat × Int) → List (Nat × Int)
  | [] => []
  | a :: as => insort a (sortedByLag as)

theorem insort_perm (a : Nat × Int) :
    ∀ l : List (Nat × Int), List.Perm (insort a l) (a :: l) := by
  intro l
  induction l with
  | nil => exact List.Perm.refl [a]
  | cons b bs ih =>
      simp only [insort]
      by_cases h : a.2 ≤ b.2
      · rw [if_pos h]
      · rw [if_neg h]
        exact (ih.cons b).trans (List.Perm.swap a b bs)

theorem sortedByLag_perm : ∀ l : List (Nat × Int), List.Perm (sortedByLag l) l := by
  intro l
  induction l with
  | nil => exact List.Perm.refl []
  | cons a as ih => exact (insort_perm a (sortedByLag as)).trans (ih.cons a)

theorem mem_insort (a x : Nat × Int) (l : List (Nat × Int)) :
    x ∈ insort a l ↔ x = a ∨ x ∈ l := by
  rw [(insort_perm a l).mem_iff, List.mem_cons]

theorem insort_sorted (a : Nat × Int) (l : List (Nat × Int))
    (h : l.Pairwise (fun p q => p.2 ≤ q.2)) :
    (insort a l).Pairwise (fun p q => p.2 ≤ q.2) := by
  induction l with
  | nil => simp [insort]
  | cons b bs ih =>
      simp only [insort]
      by_cases hab : a.2 ≤ b.2
      · rw [if_pos hab]
        refine List.Pairwise.cons ?_ h
        intro x hx
        rcases List.mem_cons.1 hx with rfl | hx
        · exact hab
        · exact le_trans hab ((List.pairwise_cons.1 h).1 x hx)
      · rw [if_neg hab]
        refine List.Pairwise.cons ?_ (ih (List.pairwise_cons.1 h).2)
        intro x hx
        rcases (mem_insort a x bs).1 hx with rfl | hx
        · exact le_of_lt (lt_of_not_le hab)
        · exact (List.pairwise_cons.1 h).1 x hx

theorem sortedByLag_sorted (l : List (Nat × Int)) :
    (sortedByLag l).Pairwise (fun p q => p.2 ≤ q.2) := by
  induction l with
  | nil => exact List.Pairwise.nil
  | cons a as ih => exact insort_sorted a (sortedByLag as) ih

/-- The order in which the lag report emits its entries: strictly
ascending lag, with ties broken by strictly ascending cpu index. -/
def lagLex (a b : Nat × Int) : Prop := a.2 < b.2 ∨ (a.2 = b.2 ∧ a.1 < b.1)

theorem insort_lex (a : Nat × Int) (l : List (Nat × Int))
    (hl : l.Pairwise lagLex) (hcpu : ∀ b ∈ l, a.1 < b.1) :
    (insort a l).Pairwise lagLex := by
  induction l with
  | nil => simp [insort]
  | cons b bs ih =>
      simp only [insort]
      by_cases hab : a.2 ≤ b.2
      · rw [if_pos hab]
        refine List.Pairwise.cons ?_ hl
        intro x hx
        rcases List.mem_cons.1 hx with rfl | hx
        · rcases lt_or_eq_of_le hab with h | h
          · exact Or.inl h
          · exact Or.inr ⟨h, hcpu x (List.mem_cons_self x bs)⟩
        · have hbx : b.2 ≤ x.2 := by
            rcases (List.pairwise_cons.1 hl).1 x hx with h | h
            · exact le_of_lt h
            · exact le_of_eq h.1
          rcases lt_or_eq_of_le (le_trans hab hbx) with h | h
          · exact Or.inl h
          · exact Or.inr ⟨h, hcpu x (List.mem_cons_of_mem b hx)⟩
      · rw [if_neg hab]
        refine List.Pairwise.cons ?_
          (ih (List.pairwise_cons.1 hl).2 (fun c hc => hcpu c (List.mem_cons_of_mem b hc)))
        intro x hx
        rcases (mem_insort a x bs).1 hx with rfl | hx
        · exact Or.inl (lt_of_not_le hab)
        · exact (List.pairwise_cons.1 hl).1 x hx

theorem sortedByLag_lex (l : List (Nat × Int)) (h : l.Pairwise (fun p q => p.1 < q.1)) :
    (sortedByLag l).Pairwise lagLex := by
  induction l with
  | nil => exact List.Pairwise.nil
  | cons a as ih =>
      refine insort_lex a (sortedByLag as) (ih (List.pairwise_cons.1 h).2) ?_
      intro b hb
      exact (List.pairwise_cons.1 h).1 b ((sortedByLag_perm as).mem_iff.1 hb)

/-- The sorted lag entries the report iterates over
(`sorted(lags.items(), key=lambda item: item[1])`). -/
def lag_entries (clocks : List (Nat × Int)) : List (Nat × Int) :=
  sortedByLag (lagsOf clocks)

/-- The seconds text of one lag line: the source formats `lag / 1e9` with
`.2f`.  Modelled in exact integer arithmetic as rounding the nanosecond
lag to centiseconds; this agrees with the double-precision source on
every lag that is an exact multiple of 10^7 ns, in particular on all
values evaluated here. -/
def fmtSecs2 (lag : Int) : String :=
  let cs := (2 * lag + 10000000) / 20000000
  toString (cs / 100) ++ "." ++ padZero 2 (cs % 100).toNat

/-- One emitted lag line, `CPU {c}: {lag / 1e9:.2f} secs`. -/
def lagLine (c : Nat) (lag : Int) : String :=
  "CPU " ++ toString c ++ ": " ++ fmtSecs2 lag ++ " secs"

/-- The full sequence of lines printed by the lag branch of
`dump_run_queue` once the last requested CPU has been processed. -/
def lag_report_lines (clocks : List (Nat × Int)) : List String :=
  (lag_entries clocks).map (fun p => lagLine p.1 p.2)

/-- Claim C5: the lag branch reports, for each collected cpu, the lag
`max_clock - clock`; the entries come out sorted ascending by lag with
ties in ascending cpu order; each line is the `CPU {c}: {secs} secs`
rendering of its entry; and the concrete clock map
{0: 5_000_000_000, 1: 3_000_000_000} produces "CPU 0: 0.00 secs" then
"CPU 1: 2.00 secs". -/
theorem lag_report_spec (clocks : List (Nat × Int))
    (hcpu : clocks.Pairwise (fun p q => p.1 < q.1)) :
    List.Perm (lag_entries clocks) (clocks.map (fun p => (p.1, maxClock clocks - p.2))) ∧
    (∀ p ∈ clocks, (p.1, maxClock clocks - p.2) ∈ lag_entries clocks) ∧
    (lag_entries clocks).Pairwise lagLex ∧
    lag_report_lines clocks = (lag_entries clocks).map (fun p => lagLine p.1 p.2) ∧
    lag_report_lines [(0, 5000000000), (1, 3000000000)] =
      ["CPU 0: 0.00 secs", "CPU 1: 2.00 secs"] := by
  refine ⟨sortedByLag_perm (lagsOf clocks), ?_, ?_, rfl, by decide⟩
  · intro p hp
    exact (sortedByLag_perm (lagsOf clocks)).mem_iff.2
      (List.mem_map_of_mem (fun q => (q.1, maxClock clocks - q.2)) hp)
  · refine sortedByLag_lex (lagsOf clocks) ?_
    exact hcpu.map _ (fun p q h => h)

/-- Claim C5, witness: `lag_report_spec` instantiated on the concrete
clock map of the claim. -/
theorem lag_report_spec_witness :
    (lag_entries [(0, 5000000000), (1, 3000000000)]).Pairwise lagLex ∧
    lag_report_lines [(0, 5000000000), (1, 3000000000)] =
      ["CPU 0: 0.00 secs", "CPU 1: 2.00 secs"] :=
  ⟨(lag_report_spec [(0, 5000000000), (1, 3000000000)] (by decide)).2.2.1,
   (lag_report_spec [(0, 5000000000), (1, 3000000000)] (by decide)).2.2.2.2⟩

/-- Claim C10: every reported lag is non-negative, some entry has lag
exactly 0, and the first emitted entry has lag exactly 0. -/
theorem lag_invariants (clocks : List (Nat × Int)) (hne : clocks ≠ []) :
    (∀ p ∈ lag_entries clocks, 0 ≤ p.2) ∧
    (∃ p ∈ lag_entries clocks, p.2 = 0) ∧
    (∃ e rest, lag_entries clocks = e :: rest ∧ e.2 = 0) := by
  have hperm := sortedByLag_perm (lagsOf clocks)
  have hnonneg : ∀ p ∈ lag_entries clocks, 0 ≤ p.2 := by
    intro p hp
    rcases List.mem_map.1 (hperm.mem_iff.1 hp) with ⟨q, hq, rfl⟩
    have := le_maxClock clocks q hq
    omega
  have hzero : ∃ p ∈ lag_entries clocks, p.2 = 0 := by
    rcases maxClock_attained clocks hne with ⟨q, hq, hqe⟩
    refine ⟨(q.1, maxClock clocks - q.2), ?_, by omega⟩
    exact hperm.mem_iff.2 (List.mem_map_of_mem (fun r => (r.1, maxClock clocks - r.2)) hq)
  refine ⟨hnonneg, hzero, ?_⟩
  have hlen : lag_entries clocks ≠ [] := by
    intro h
    rcases hzero with ⟨p, hp, _⟩
    rw [h] at hp
    cases hp
  cases hE : lag_entries clocks with
  | nil => exact absurd hE hlen
  | cons e rest =>
      refine ⟨e, rest, rfl, ?_⟩
      have hsorted := sortedByLag_sorted (lagsOf clocks)
      rw [show sortedByLag (lagsOf clocks) = lag_entries clocks from rfl, hE] at hsorted
      rcases hzero with ⟨p, hp, hp0⟩
      rw [hE] at hp
      rcases List.mem_cons.1 hp with rfl | hp
      · exact hp0
      · have h1 : e.2 ≤ p.2 := (List.pairwise_cons.1 hsorted).1 p hp
        have h2 : 0 ≤ e.2 := hnonneg e (by rw [hE]; exact List.mem_cons_self e rest)
        omega

/-- Claim C10, witness: `lag_invariants` on a concrete one-cpu clock
map. -/
theorem lag_invariants_witness :
    ∃ e rest, lag_entries [(3, 7)] = e :: rest ∧ e.2 = 0 :=
  (lag_invariants [(3, 7)] (by decide)).2.2

/-- The lag branch of the per-CPU loop of `dump_run_queue`, run for a
bounded number of iterations: `n` is `len(cpus)`, `i` the running
`enumerate` index, `acc` the `runq_clocks` mapping collected so far (an
insertion-ordered association list), and the fourth argument the
remaining (cpu, clock) pairs of the enumeration.  Each iteration records
the cpu's clock; only when `i == len(cpus) - 1` does it compute and
print the report, then return.  The result is the list of lag lines
printed within the given number of iterations. -/
def lag_prefix_output (n : Nat) : Nat → Nat → List (Nat × Int) → List (Nat × Int) → List String
  | 0, _, _, _ => []
  | _ + 1, _, _, [] => []
  | k + 1, i, acc, p :: rest =>
      if (i : Int) = (n : Int) - 1 then lag_report_lines (acc ++ [p])
      else lag_prefix_output n k (i + 1) (acc ++ [p]) rest

/-- Claim C6: in lag mode, as long as the loop has not reached the last
requested CPU (index `len(cpus) - 1`), nothing is printed: every prefix
of the processing loop that stops before the last requested CPU produces
empty output. -/
theorem lag_no_premature_output (n : Nat) :
    ∀ (k i : Nat) (acc rest : List (Nat × Int)), i + k < n →
      lag_prefix_output n k i acc rest = [] := by
  intro k
  induction k with
  | zero => intro i acc rest h; rfl
  | succ k ih =>
      intro i acc rest h
      cases rest with
      | nil => rfl
      | cons p rest =>
          have hne : ¬((i : Int) = (n : Int) - 1) := by omega
          simp only [lag_prefix_output, if_neg hne]
          exact ih (i + 1) (acc ++ [p]) rest (by omega)

/-- Claim C6, witness: one iteration of a two-cpu lag run prints
nothing. -/
theorem lag_no_premature_output_witness :
    lag_prefix_output 2 1 0 [] [(0, 5), (1, 3)] = [] :=
  lag_no_premature_output 2 1 0 [] [(0, 5), (1, 3)] (by decide)

/-- The error kinds of the command surface. -/
inductive CmdError where
  | invalidSpec
deriving DecidableEq

/-- Modelled from the spec: `parse_cpuspec(...).cpus(prog)`
(`drgn.commands.crash`, not under src/) resolves the requested CPU
filter, failing with `InvalidSpec` if the specification names CPUs
outside the online set; an empty filter means all online CPUs and is
represented by the empty list. -/
def cpuspec_cpus (online requested : List Nat) : Except CmdError (List Nat) :=
  if requested.all (fun c => online.contains c) then Except.ok requested
  else Except.error CmdError.invalidSpec

/-- The cpu-selection logic of `get_rq_per_cpu`: an empty filter selects
every online cpu; otherwise the online cpus are filtered by membership
in the requested list, keeping the online enumeration's order. -/
def get_rq_per_cpu_cpus (online requested : List Nat) : List Nat :=
  if requested.isEmpty then online else online.filter (fun c => requested.contains c)

/-- The cpu enumeration as `dump_run_queue` runs it: the parsed cpuspec
is handed to `get_rq_per_cpu`. -/
def enumerate_cpus (online requested : List Nat) : Except CmdError (List Nat) :=
  match cpuspec_cpus online requested with
  | Except.error e => Except.error e
  | Except.ok cs => Except.ok (get_rq_per_cpu_cpus online cs)

theorem contains_true_iff (l : List Nat) (c : Nat) : l.contains c = true ↔ c ∈ l := by
  simp [List.contains, List.elem_iff]

/-- Claim C4: when the filter names a cpu outside the online set the
enumeration fails with `InvalidSpec`; otherwise it yields exactly the
cpus that are online and (unless the filter is empty) requested, in the
ascending order of the online enumeration. -/
theorem cpu_enumeration_spec (online requested : List Nat)
    (hsorted : online.Pairwise (fun a b => a < b)) :
    (¬(∀ c ∈ requested, c ∈ online) →
      enumerate_cpus online requested = Except.error CmdError.invalidSpec) ∧
    ((∀ c ∈ requested, c ∈ online) →
      enumerate_cpus online requested = Except.ok (get_rq_per_cpu_cpus online requested) ∧
      (get_rq_per_cpu_cpus online requested).Pairwise (fun a b => a < b) ∧
      ∀ c, c ∈ get_rq_per_cpu_cpus online requested ↔
        c ∈ online ∧ (requested = [] ∨ c ∈ requested)) := by
  constructor
  · intro h
    rw [enumerate_cpus, cpuspec_cpus, if_neg]
    intro hall
    exact h (fun c hc => (contains_true_iff online c).1 (List.all_eq_true.1 hall c hc))
  · intro h
    have hall : requested.all (fun c => online.contains c) = true :=
      List.all_eq_true.2 (fun c hc => (contains_true_iff online c).2 (h c hc))
    refine ⟨by rw [enumerate_cpus, cpuspec_cpus, if_pos hall], ?_, ?_⟩
    · rw [get_rq_per_cpu_cpus]
      by_cases he : requested.isEmpty
      · rw [if_pos he]; exact hsorted
      · rw [if_neg he]; exact hsorted.filter _
    · intro c
      rw [get_rq_per_cpu_cpus]
      by_cases he : requested.isEmpty
      · rw [if_pos he, List.isEmpty_iff] at *
        simp [he]
      · rw [if_neg he, List.mem_filter, contains_true_iff]
        rw [List.isEmpty_iff] at he
        constructor
        · exact fun hc => ⟨hc.1, Or.inr hc.2⟩
        · rintro ⟨h1, h2 | h2⟩
          · exact absurd h2 he
          · exact ⟨h1, h2⟩

/-- Claim C4, witness: on online cpus [0, 1, 2], the filter [2, 0]
selects [0, 2] (online order, not filter order), and the filter [5]
fails with `InvalidSpec`. -/
theorem cpu_enumeration_spec_witness :
    enumerate_cpus [0, 1, 2] [2, 0] = Except.ok [0, 2] ∧
    enumerate_cpus [0, 1, 2] [5] = Except.error CmdError.invalidSpec := by
  constructor
  · have h := ((cpu_enumeration_spec [0, 1, 2] [2, 0] (by decide)).2 (by decide)).1
    have h2 : get_rq_per_cpu_cpus [0, 1, 2] [2, 0] = [0, 2] := by decide
    rw [h, h2]
  · exact (cpu_enumeration_spec [0, 1, 2] [5] (by decide)).1 (by decide)

/-- One line printed by the verbose (default) branch of
`dump_run_queue`, with the values it renders; the textual layout,
hex rendering and ascii escaping are external display concerns. -/
inductive VLine where
  | header (cpu : Nat) (rq_addr : Int)
  | current (pid : Int) (task_addr : Int) (prio : Int) (comm : List Nat)
  | rtHeader (addr : Int)
  | rtTask (prio : Int) (pid : Int) (task_addr : Int) (comm : List Nat)
  | cfsHeader (addr : Int)
  | cfsTask (prio : Int) (pid : Int) (task_addr : Int) (comm : List Nat)
  | noTasksQueued
  | blank
deriving DecidableEq

/-- Recognizes the "[no tasks queued]" marker line. -/
def isNoTasksMarker : VLine → Bool
  | VLine.noTasksQueued => true
  | _ => false

/-- The per-CPU output of the verbose (default, non-group) branch of
`dump_run_queue`: header and current-task line; the RT priority-array
header (the source prints `prio_array - 16` when the address is nonzero,
else 0); the RT waiting tasks with the current task skipped, or a
"[no tasks queued]" marker when the walker yielded nothing; the CFS
tree-root header; the CFS waiting tasks, or the marker when the walker
yielded nothing; and a closing blank line.  `mem` reads the task fields
at an address. -/
def verbose_cpu_lines (L : Layout) (mem : Int → TaskFields) (rq : Runqueue)
    (cpu : Nat) : List VLine :=
  let c := mem rq.curr
  let rt_tasks := get_rt_runq_tasks L rq
  let cfs_tasks := get_cfs_runq_tasks L rq
  [VLine.header cpu rq.addr, VLine.current c.pid rq.curr c.prio c.comm,
    VLine.rtHeader (if rq.rt_active_addr = 0 then 0 else rq.rt_active_addr - 16)] ++
  (if rt_tasks.isEmpty then [VLine.noTasksQueued]
    else (rt_tasks.filter (fun t => !(t == rq.curr))).map
      (fun t => VLine.rtTask (mem t).prio (mem t).pid t (mem t).comm)) ++
  [VLine.cfsHeader rq.cfs_timeline_addr] ++
  (if cfs_tasks.isEmpty then [VLine.noTasksQueued]
    else cfs_tasks.map (fun t => VLine.cfsTask (mem t).prio (mem t).pid t (mem t).comm)) ++
  [VLine.blank]

/-- The display-mode flags of the `runq` command. -/
structure Flags where
  show_timestamps : Bool
  show_lag : Bool
  pretty_runtime : Bool
  group : Bool

/-- Modelled from the spec: `task_since_last_arrival_ns`
(`drgn.helpers.linux.sched`, not under src/) is the elapsed run time,
`now_reference - last_arrival_timestamp` in nanoseconds. -/
def task_since_last_arrival_ns (now last_arrival : Int) : Int := now - last_arrival

/-- One cell of a table-mode row, carrying the value the source hands to
the table renderer. -/
inductive Cell where
  | cpuCell (n : Nat)
  | pidCell (p : Int)
  | taskAddr (a : Int)
  | prioCell (p : Int)
  | commCell (c : List Nat)
  | runtimeNs (ns : Int)
  | rqTs (t : Int)
  | taskTs (t : Int)
deriving DecidableEq

/-- The single row table mode appends for one CPU: cpu, pid, current
task address, priority and command, plus the optional runtime and raw
timestamp columns.  Only the current task is read; the waiting-task
walkers are never consulted in table mode. -/
def table_row (mem : Int → TaskFields) (now : Int) (f : Flags) (cpu : Nat)
    (rq : Runqueue) : List Cell :=
  let c := mem rq.curr
  [Cell.cpuCell cpu, Cell.pidCell c.pid, Cell.taskAddr rq.curr, Cell.prioCell c.prio,
    Cell.commCell c.comm] ++
  (if f.pretty_runtime then [Cell.runtimeNs (task_since_last_arrival_ns now c.last_arrival)]
    else []) ++
  (if f.show_timestamps then [Cell.rqTs rq.clock, Cell.taskTs c.last_arrival] else [])

/-- Claim C8: on a CPU whose RT walker yields nothing and whose CFS
walker yields nothing besides the (excluded) current task, the verbose
branch prints exactly the two headers, the current-task line, one
"[no tasks queued]" marker for RT and one for CFS, and the closing blank
line — two markers in total and no failure; and in table mode the row of
a CPU is independent of its waiting queues. -/
theorem empty_queues_markers (L : Layout) (mem : Int → TaskFields) (rq : Runqueue)
    (cpu : Nat) (hrt : get_rt_runq_tasks L rq = []) (hcfs : get_cfs_runq_tasks L rq = []) :
    verbose_cpu_lines L mem rq cpu =
      [VLine.header cpu rq.addr,
       VLine.current (mem rq.curr).pid rq.curr (mem rq.curr).prio (mem rq.curr).comm,
       VLine.rtHeader (if rq.rt_active_addr = 0 then 0 else rq.rt_active_addr - 16),
       VLine.noTasksQueued,
       VLine.cfsHeader rq.cfs_timeline_addr,
       VLine.noTasksQueued,
       VLine.blank] ∧
    (verbose_cpu_lines L mem rq cpu).countP isNoTasksMarker = 2 ∧
    (∀ (now : Int) (f : Flags) (q : List (List Int)) (cf : List Int),
      table_row mem now f cpu
          { rq with rt_active_queue := q, cfs_tasks := cf } =
        table_row mem now f cpu rq) := by
  have hlines : verbose_cpu_lines L mem rq cpu =
      [VLine.header cpu rq.addr,
       VLine.current (mem rq.curr).pid rq.curr (mem rq.curr).prio (mem rq.curr).comm,
       VLine.rtHeader (if rq.rt_active_addr = 0 then 0 else rq.rt_active_addr - 16),
       VLine.noTasksQueued,
       VLine.cfsHeader rq.cfs_timeline_addr,
       VLine.noTasksQueued,
       VLine.blank] := by
    rw [verbose_cpu_lines]
    rw [hrt, hcfs]
    rfl
  refine ⟨hlines, ?_, ?_⟩
  · rw [hlines]
    rfl
  · intro now f q cf
    rfl

/-- A run-queue with empty RT slots and an empty `cfs_tasks` list. -/
def rqAllEmpty : Runqueue :=
  { addr := 500, curr := 1000, clock := 0, rt_active_addr := 600,
    rt_active_queue := [[], []], cfs_timeline_addr := 700, cfs_tasks := [] }

/-- A concrete task-field view: every address reads the same fields. -/
def memEx : Int → TaskFields := fun _ => ⟨7, 120, 42, [104, 105]⟩

/-- Claim C8, witness: `empty_queues_markers` on a concrete run-queue
whose queues are empty. -/
theorem empty_queues_markers_witness :
    (verbose_cpu_lines layoutEx memEx rqAllEmpty 0).countP isNoTasksMarker = 2 :=
  (empty_queues_markers layoutEx memEx rqAllEmpty 0 (by decide) (by decide)).2.1

/-- Claim C9: the fields computed by `timestamp_str` recombine exactly to
the truncated millisecond total, with each field below its unit bound. -/
theorem timestamp_fields_recombine (ns : Nat) :
    (timestamp_fields ns).1 * 86400000 + (timestamp_fields ns).2.1 * 3600000 +
      (timestamp_fields ns).2.2.1 * 60000 + (timestamp_fields ns).2.2.2.1 * 1000 +
      (timestamp_fields ns).2.2.2.2 = ns / 1000000 ∧
    (timestamp_fields ns).2.1 < 24 ∧ (timestamp_fields ns).2.2.1 < 60 ∧
    (timestamp_fields ns).2.2.2.1 < 60 ∧ (timestamp_fields ns).2.2.2.2 < 1000 := by
  simp only [timestamp_fields]
  omega

end DrgnRunq
